import Mathlib

/-!
# Verification of the parade-contingents allocation engine and formation renderer

Shallow embedding of `src/solve_parade.py` and `src/draw_formation.py`.

Conventions used throughout:

* Python dicts that are only iterated in insertion order (`group_sizes`,
  contingent dicts, `remaining_group_sizes`) are embedded as association
  lists `List (String × Nat)` / `List (String × GroupInfo)`; their keys are
  distinct in every run of the program, which appears as `Nodup` hypotheses.
* The OR-Tools solver is an external oracle: `allocate_contingents` receives
  the status it reports and the integral variable values it returns.  The
  constraint set that the real solver guarantees on those values is embedded
  separately as the decidable predicate `satisfiesConstraints`, and theorems
  take it as a hypothesis.  Solver variables are indexed by the group label
  rather than the group's position in the residual list; the two indexings
  are in bijection because dict keys are distinct.
* Python `while` loops are embedded structurally with an explicit fuel
  argument that provably dominates the number of iterations the loop can
  make, so that all definitions compute by kernel reduction.
-/

/-- A contingent, as built by the source: a Python dict from group label to
assigned head-count, embedded as an insertion-ordered association list. -/
abbrev Contingent := List (String × Nat)

/-- One entry of the `group_sizes` configuration dict. -/
structure GroupInfo where
  size : Nat
  avoid_split : Bool
deriving DecidableEq, Repr

/-- Total head-count of a contingent (`sum(cont.values())`). -/
def contSum (cont : Contingent) : Nat :=
  (cont.map Prod.snd).sum

/-- People assigned to group `g` inside one contingent (0 if `g` is absent). -/
def contCount (cont : Contingent) (g : String) : Nat :=
  (cont.map (fun p => if p.1 = g then p.2 else 0)).sum

/-- People assigned to group `g` across a whole list of contingents. -/
def groupTotal (conts : List Contingent) (g : String) : Nat :=
  (conts.map (fun cont => contCount cont g)).sum

/-- The inner `while group_count >= capacity` loop of the pre-allocation phase
of `allocate_contingents` (solve_parade.py lines 127-129): repeatedly carve a
full contingent `{g: capacity}` off the running `count`.  The loop decreases
`count` by `capacity ≥ 1` each iteration, so fuel `count` dominates it. -/
def chunkLoopAux : Nat → String → Nat → Nat → List Contingent × Nat
  | 0, _, count, _ => ([], count)
  | fuel + 1, g, count, capacity =>
    if capacity ≤ count then
      let r := chunkLoopAux fuel g (count - capacity) capacity
      ([(g, capacity)] :: r.1, r.2)
    else
      ([], count)

/-- The pre-allocation chunk loop for one group, with sufficient fuel. -/
def chunkLoop (g : String) (count capacity : Nat) : List Contingent × Nat :=
  chunkLoopAux count g count capacity

/-- Phase 1 of `allocate_contingents` (solve_parade.py lines 118-138): walk
the `group_sizes` dict in insertion order; each `avoid_split` group with
positive size is greedily chunked into full contingents, with a positive
leftover going to the residual dict; every other group passes its whole size
to the residual dict. -/
def preAllocate : List (String × GroupInfo) → Nat → List Contingent × List (String × Nat)
  | [], _ => ([], [])
  | (g, info) :: rest, capacity =>
    let r := preAllocate rest capacity
    if info.avoid_split = true ∧ 0 < info.size then
      let cl := chunkLoop g info.size capacity
      (cl.1 ++ r.1, if 0 < cl.2 then (g, cl.2) :: r.2 else r.2)
    else
      (r.1, (g, info.size) :: r.2)

/-- `max_contingents = total_people // capacity + 3` (solve_parade.py line 158),
computed from the residual dict handed to the solver. -/
def maxContingents (rem : List (String × Nat)) (capacity : Nat) : Nat :=
  (rem.map Prod.snd).sum / capacity + 3

/-- `assigned_sum` for candidate contingent `c` (solve_parade.py line 306):
the total of the solved `x` values over all residual groups. -/
def assignedSum (labels : List String) (x : String → Nat → Nat) (c : Nat) : Nat :=
  (labels.map (fun g => x g c)).sum

/-- The `cont_dict` built for candidate contingent `c` (solve_parade.py lines
309-313): keep only the groups with strictly positive solved value, in the
residual dict's key order. -/
def extractCont (labels : List String) (x : String → Nat → Nat) (c : Nat) : Contingent :=
  labels.filterMap (fun g => if 0 < x g c then some (g, x g c) else none)

/-- Phase 7 of `allocate_contingents` (solve_parade.py lines 303-314): scan
all candidate contingents, skip the empty ones, and extract a contingent dict
from each remaining candidate. -/
def extractSolution (labels : List String) (x : String → Nat → Nat) (C : Nat) :
    List Contingent :=
  (List.range C).filterMap (fun c =>
    if assignedSum labels x c = 0 then none else some (extractCont labels x c))

/-- Result statuses reported by `pywraplp.Solver.Solve`. -/
inductive SolverStatus where
  | OPTIMAL
  | FEASIBLE
  | INFEASIBLE
  | UNBOUNDED
  | ABNORMAL
  | NOT_SOLVED
deriving DecidableEq, Repr

/-- `allocate_contingents` (solve_parade.py lines 53-326), with the solver
modeled as an oracle: `status` is what `solver.Solve()` reports, `xval` the
integral values read back from the `x[i,c]` variables, and `objVal` the
reported objective value.  Spinner, printing and timing code is cosmetic and
not part of the embedding.  The parameters `strict_min_capacity`,
`contingent_row_size`, `use_all` and the adjusted `fix_num_contingents` shape
the constraint model handed to the solver, embedded as
`satisfiesConstraints` below. -/
def allocate_contingents (group_sizes : List (String × GroupInfo))
    (capacity strict_min_capacity contingent_row_size : Nat) (use_all : Bool)
    (fix_num_contingents : Option Nat) (status : SolverStatus)
    (xval : String → Nat → Nat) (objVal : Int) :
    Except String (List Contingent × Int) :=
  let pre := preAllocate group_sizes capacity
  let pre_allocated_contingents := pre.1
  let remaining_group_sizes := pre.2
  -- lines 141-144: subtract the pre-allocated contingents, clamped at zero
  let _fixN := fix_num_contingents.map (fun k => k - pre_allocated_contingents.length)
  let A := remaining_group_sizes.map Prod.snd
  let total_people := A.sum
  if total_people = 0 then
    -- lines 151-154: nothing left for the solver
    .ok (pre_allocated_contingents, 0)
  else
    let groups := remaining_group_sizes.map Prod.fst
    let max_contingents := maxContingents remaining_group_sizes capacity
    if status ≠ SolverStatus.OPTIMAL ∧ status ≠ SolverStatus.FEASIBLE then
      -- lines 294-296
      .error "No feasible solution found by the solver."
    else
      .ok (pre_allocated_contingents ++ extractSolution groups xval max_contingents,
        objVal)

/-- An integral assignment to the model's decision variables, indexed by the
residual group's label (the labels are the distinct keys of
`remaining_group_sizes`, in bijection with the index `i` of the source) and
the candidate-contingent index `c`. -/
structure SolverVals where
  x : String → Nat → Nat
  y : String → Nat → Bool
  z : Nat → Bool
  m : String → Nat → Nat

/-- `sum_i x[i,c]`: total head-count placed in candidate contingent `c`. -/
def contTotal (rem : List (String × Nat)) (v : SolverVals) (c : Nat) : Nat :=
  (rem.map (fun p => v.x p.1 c)).sum

/-- The check guarding constraint block 4e (solve_parade.py line 236): the
group's entry in the original `group_sizes` dict has `avoid_split` set and an
original size strictly below capacity. -/
def qualifiesSingleton (group_sizes : List (String × GroupInfo)) (capacity : Nat)
    (g : String) : Bool :=
  match group_sizes.lookup g with
  | some info => info.avoid_split && decide (info.size < capacity)
  | none => false

/-- The constraint set built by `allocate_contingents` (solve_parade.py lines
187-257) over the residual groups `rem`, stated on an integral assignment
`v`.  `C` is the candidate count, `fixN` the already-adjusted fixed contingent
count.  Variable bounds come from the `IntVar` declarations; `BIG_M` and
`BIG_M_2` both equal `capacity` as in the source.  The `m` variables are only
created (hence only bounded) for groups passing `qualifiesSingleton`. -/
def satisfiesConstraints (group_sizes : List (String × GroupInfo))
    (rem : List (String × Nat)) (capacity strict_min_capacity contingent_row_size : Nat)
    (use_all : Bool) (fixN : Option Nat) (C : Nat) (v : SolverVals) : Prop :=
  -- x[i,c] = IntVar(0, A[i])  (line 192)
  (∀ p ∈ rem, ∀ c < C, v.x p.1 c ≤ p.2) ∧
  -- 4a: sum_i x[i,c] <= capacity * z[c]  (line 204)
  (∀ c < C, contTotal rem v c ≤ capacity * (v.z c).toNat) ∧
  -- sum_i x[i,c] >= z[c]  (line 208)
  (∀ c < C, (v.z c).toNat ≤ contTotal rem v c) ∧
  -- 4b: group usage, == A[i] when use_all else <= A[i]  (lines 211-215)
  (∀ p ∈ rem,
    (use_all = true → ((List.range C).map (fun c => v.x p.1 c)).sum = p.2) ∧
    (use_all = false → ((List.range C).map (fun c => v.x p.1 c)).sum ≤ p.2)) ∧
  -- 4c: x[i,c] <= BIG_M * y[i,c] with BIG_M = capacity  (lines 185, 220)
  (∀ p ∈ rem, ∀ c < C, v.x p.1 c ≤ capacity * (v.y p.1 c).toNat) ∧
  -- 4d: sum_c z[c] == fix_num_contingents when fixed  (lines 223-224)
  (∀ k ∈ fixN.toList, ((List.range C).map (fun c => (v.z c).toNat)).sum = k) ∧
  -- 4e: singleton occupancy and row-multiple sizing  (lines 231-253)
  (∀ p ∈ rem, qualifiesSingleton group_sizes capacity p.1 = true →
    ((List.range C).map (fun c => (v.y p.1 c).toNat)).sum = 1 ∧
    ∀ c < C,
      v.m p.1 c ≤ capacity ∧
      (contTotal rem v c : Int) - contingent_row_size * v.m p.1 c ≤
        capacity * (1 - ((v.y p.1 c).toNat : Int)) ∧
      -(capacity * (1 - ((v.y p.1 c).toNat : Int))) ≤
        (contTotal rem v c : Int) - contingent_row_size * v.m p.1 c) ∧
  -- 4f: sum_i x[i,c] >= strict_min_capacity * z[c]  (line 257)
  (∀ c < C, strict_min_capacity * (v.z c).toNat ≤ contTotal rem v c)

instance (group_sizes : List (String × GroupInfo)) (rem : List (String × Nat))
    (capacity strict_min_capacity contingent_row_size : Nat) (use_all : Bool)
    (fixN : Option Nat) (C : Nat) (v : SolverVals) :
    Decidable (satisfiesConstraints group_sizes rem capacity strict_min_capacity
      contingent_row_size use_all fixN C v) := by
  unfold satisfiesConstraints
  infer_instance

/-- Point a seat matrix entry to `False` (the Python statement
`seats[row][col_to_remove] = False`). -/
def eraseSeat (f : Nat → Nat → Bool) (r c : Nat) : Nat → Nat → Bool :=
  fun r' c' => if r' = r ∧ c' = c then false else f r' c'

/-- The inner `for row in range(row_size-1, -1, -1)` loop of
`create_contingent_ascii` (draw_formation.py lines 19-24): walk the given row
indices, and while fewer than `missing` seats have been removed, blank the
seat at `(row, col)`; the early `break` is equivalent to the guard because
the loop body has no other effect. -/
def removeRowsLoop (col missing : Nat) :
    List Nat → (Nat → Nat → Bool) × Nat → (Nat → Nat → Bool) × Nat
  | [], st => st
  | r :: rest, (f, removed) =>
    if removed < missing then
      removeRowsLoop col missing rest (eraseSeat f r col, removed + 1)
    else
      (f, removed)

/-- The outer `while seats_removed < missing and col_to_remove < columns` loop
of `create_contingent_ascii` (draw_formation.py lines 17-25).  `col`
increases by one per iteration and the loop stops once `col = columns`, so
fuel `columns` dominates the iteration count when starting from `col = 1`. -/
def removeSeatsLoop :
    Nat → (Nat → Nat → Bool) → Nat → Nat → Nat → Nat → Nat → (Nat → Nat → Bool)
  | 0, f, _, _, _, _, _ => f
  | fuel + 1, f, missing, removed, col, columns, rows =>
    if removed < missing ∧ col < columns then
      let st := removeRowsLoop col missing (List.range rows).reverse (f, removed)
      removeSeatsLoop fuel st.1 missing st.2 (col + 1) columns rows
    else
      f

/-- The boolean occupancy matrix built by `create_contingent_ascii`
(draw_formation.py lines 5-25), embedded as a total function together with
its dimensions.  Seats outside `rows × columns` are never touched. -/
structure SeatGrid where
  rows : Nat
  columns : Nat
  seat : Nat → Nat → Bool

/-- `create_contingent_ascii` up to rendering (draw_formation.py lines 5-25):
`columns = math.ceil(total_people / row_size)` (exact rational ceiling,
`(t + r - 1) / r` in integers), all seats start occupied, and `missing`
seats are removed starting at column index 1, bottom row first. -/
def create_contingent_ascii (total_people : Nat) (row_size : Nat) : SeatGrid :=
  let columns := (total_people + row_size - 1) / row_size
  let total_grid_size := row_size * columns
  let missing := total_grid_size - total_people
  let init : Nat → Nat → Bool := fun _ _ => true
  let seats :=
    if 0 < missing then removeSeatsLoop columns init missing 0 1 columns row_size
    else init
  ⟨row_size, columns, seats⟩

/-- One rendered seat row (draw_formation.py lines 29-36): `"x"` for an
occupied seat, `" "` for a removed one, cells joined by a single space. -/
def seatRowChars (g : SeatGrid) (r : Nat) : List Char :=
  List.intersperse ' '
    ((List.range g.columns).map (fun c => if g.seat r c then 'x' else ' '))

/-- The full rendered grid (draw_formation.py lines 27-38): seat rows joined
by newlines, as a character list. -/
def gridChars (g : SeatGrid) : List Char :=
  List.intercalate ['\n'] ((List.range g.rows).map (fun r => seatRowChars g r))

/-- The string returned by `create_contingent_ascii`. -/
def gridString (g : SeatGrid) : String :=
  ⟨gridChars g⟩

/-- Number of occupied seats of the grid. -/
def occupiedCount (g : SeatGrid) : Nat :=
  ((List.range g.rows).map
    (fun r => (List.range g.columns).countP (fun c => g.seat r c))).sum

/-- The `(capacity_diff, idx, header + "\n" + formation)` tuples built by
`create_parade_formation` (draw_formation.py lines 41-51), with 1-based
contingent ordinals as produced by `enumerate(contingents, start=1)`. -/
def displayTuples (contingents : List Contingent)
    (contingent_row_size capacity : Nat) : List (Nat × Nat × String) :=
  (List.enumFrom 1 contingents).map (fun p =>
    let total_in_cont := contSum p.2
    let capacity_diff := ((capacity : Int) - total_in_cont).natAbs
    let formation := gridString (create_contingent_ascii total_in_cont contingent_row_size)
    let composition :=
      String.intercalate ", " (p.2.map (fun q => toString q.2 ++ " " ++ q.1))
    let header := "C" ++ toString p.1 ++ " (" ++ composition ++ ")"
    (capacity_diff, p.1, header ++ "\n" ++ formation))

/-- `contingent_displays.sort(key=lambda x: x[0])` (draw_formation.py line
53): Python's sort is the stable ascending sort by the key, which for the
total comparison `a.1 ≤ b.1` is exactly `List.insertionSort`. -/
def sortedDisplays (contingents : List Contingent)
    (contingent_row_size capacity : Nat) : List (Nat × Nat × String) :=
  List.insertionSort (fun a b => a.1 ≤ b.1)
    (displayTuples contingents contingent_row_size capacity)

/-- Python's `max` over a list, which raises `ValueError` on an empty
sequence (used by draw_formation.py lines 66 and 80). -/
def pyMax : List Nat → Except String Nat
  | [] => .error "max() arg is an empty sequence"
  | x :: xs => .ok (xs.foldl Nat.max x)

/-- Python's `str.rjust`: left-pad with spaces up to the requested width. -/
def pyRjust (s : String) (width : Nat) : String :=
  if width ≤ s.length then s else String.mk (List.replicate (width - s.length) ' ') ++ s

/-- Python's `str.lstrip`: drop leading whitespace. -/
def pyLstrip (s : String) : String :=
  String.mk (s.data.dropWhile Char.isWhitespace)

/-- One display row of the composed formation (draw_formation.py lines 66-75
and 80-89): for each text line index up to the tallest diagram of the row,
right-justify every diagram's line to 50 columns (blank 50-column cell when
the diagram is shorter), concatenate, and strip leading whitespace.  The
`max(...)` over the diagram heights raises on an empty display row. -/
def composeDisplayRow (row_lines : List (List String)) : Except String (List String) := do
  let mx ← pyMax (row_lines.map List.length)
  return (List.range mx).map (fun line_idx =>
    pyLstrip (String.join (row_lines.map (fun formation =>
      if line_idx < formation.length then pyRjust (formation.getD line_idx "") 50
      else String.mk (List.replicate 50 ' ')))))

/-- `create_parade_formation` (draw_formation.py lines 40-91): sort the
rendered contingent diagrams by closeness to capacity, split them into two
display rows of `ceil(n/2)` and `floor(n/2)` diagrams, compose each row
side by side, and join the two rows with one blank line. -/
def create_parade_formation (contingents : List Contingent)
    (contingent_row_size capacity : Nat) : Except String String := do
  let sorted_displays :=
    (sortedDisplays contingents contingent_row_size capacity).map (fun t => t.2.2)
  let first_row_count := (contingents.length + 1) / 2
  let first_row := sorted_displays.take first_row_count
  let second_row := sorted_displays.drop first_row_count
  let first_row_lines := first_row.map (fun d => d.splitOn "\n")
  let second_row_lines := second_row.map (fun d => d.splitOn "\n")
  let fr ← composeDisplayRow first_row_lines
  let sr ← composeDisplayRow second_row_lines
  return String.intercalate "\n" (fr ++ [""] ++ sr)

/-- Python list item assignment `l[idx] = v` with Python's index semantics:
a negative index counts from the end, and an index out of range raises
`IndexError` (used by draw_formation.py line 201). -/
def pySetItem {α : Type} (l : List α) (idx : Int) (v : α) : Except String (List α) :=
  let n : Int := l.length
  let j := if idx < 0 then idx + n else idx
  if 0 ≤ j ∧ j < n then .ok (l.set j.toNat v) else .error "list assignment index out of range"

/-- First pass of the position remapping (draw_formation.py lines 194-201):
place every contingent whose 1-based ordinal appears in `positions_map` at
slot `positions_map[old_pos] - 1` of a `None`-initialised list. -/
def placeMapped (contingents : List Contingent) (positions_map : List (Nat × Nat)) :
    Except String (List (Option Contingent)) :=
  (List.range contingents.length).foldlM (fun reordered i =>
    match positions_map.lookup (i + 1) with
    | some p => pySetItem reordered ((p : Int) - 1) (some (contingents.getD i []))
    | none => .ok reordered)
    (List.replicate contingents.length (none : Option Contingent))

/-- The inner `while fill_index < len(contingents)` search of the second pass
(draw_formation.py lines 208-214): advance `fill_index` to the next
contingent not named in `positions_map`; return it and the index to resume
from.  Each iteration increases `fill_index`, so fuel
`contingents.length - fill_index` dominates the loop. -/
def findFillLoop (contingents : List Contingent) (positions_map : List (Nat × Nat)) :
    Nat → Nat → Option (Nat × Nat)
  | 0, _ => none
  | fuel + 1, fill_index =>
    if fill_index < contingents.length then
      if (positions_map.lookup (fill_index + 1)).isNone then some (fill_index, fill_index + 1)
      else findFillLoop contingents positions_map fuel (fill_index + 1)
    else
      none

/-- Second pass of the position remapping (draw_formation.py lines 204-214):
fill each still-empty slot, left to right, with the next contingent whose
ordinal is not named in `positions_map`. -/
def fillGaps (contingents : List Contingent) (positions_map : List (Nat × Nat))
    (reordered : List (Option Contingent)) : List (Option Contingent) :=
  ((List.range contingents.length).foldl (fun (st : List (Option Contingent) × Nat) i =>
    if st.1.getD i none = none then
      match findFillLoop contingents positions_map (contingents.length - st.2) st.2 with
      | some (j, fi) => (st.1.set i (some (contingents.getD j [])), fi)
      | none => (st.1, contingents.length)
    else st) (reordered, 0)).1

/-- The whole position remapping of `draw_formation.main` (draw_formation.py
lines 194-214): `positions_map` is the dict from original 1-based contingent
ordinal to desired 1-based final position. -/
def remapPositions (contingents : List Contingent) (positions_map : List (Nat × Nat)) :
    Except String (List (Option Contingent)) := do
  let placed ← placeMapped contingents positions_map
  return fillGaps contingents positions_map placed

/-! ## Lemmas about the pre-allocation chunker -/

theorem chunkLoopAux_eq (g : String) (capacity : Nat) (hcap : 0 < capacity) :
    ∀ fuel count, count ≤ fuel →
      chunkLoopAux fuel g count capacity =
        (List.replicate (count / capacity) [(g, capacity)], count % capacity) := by
  intro fuel
  induction fuel with
  | zero =>
    intro count hle
    have hc0 : count = 0 := Nat.le_zero.mp hle
    subst hc0
    simp [chunkLoopAux, Nat.zero_div, Nat.zero_mod]
  | succ fuel ih =>
    intro count hle
    by_cases hc : capacity ≤ count
    · have hrec := ih (count - capacity) (by omega)
      have hdiv : count / capacity = (count - capacity) / capacity + 1 :=
        Nat.div_eq_sub_div hcap hc
      have hmod : count % capacity = (count - capacity) % capacity :=
        (Nat.mod_eq_sub_mod hc).symm ▸ rfl
      simp [chunkLoopAux, hc, hrec, hdiv, Nat.mod_eq_sub_mod hc, List.replicate_succ]
    · have hlt : count < capacity := Nat.lt_of_not_le hc
      simp [chunkLoopAux, hc, Nat.div_eq_of_lt hlt, Nat.mod_eq_of_lt hlt]

theorem chunkLoop_eq (g : String) (count capacity : Nat) (hcap : 0 < capacity) :
    chunkLoop g count capacity =
      (List.replicate (count / capacity) [(g, capacity)], count % capacity) :=
  chunkLoopAux_eq g capacity hcap count count (Nat.le_refl count)

theorem chunkLoopAux_mem (g : String) (capacity : Nat) :
    ∀ fuel count cont, cont ∈ (chunkLoopAux fuel g count capacity).1 →
      cont = [(g, capacity)] := by
  intro fuel
  induction fuel with
  | zero => intro count cont h; simp [chunkLoopAux] at h
  | succ fuel ih =>
    intro count cont h
    by_cases hc : capacity ≤ count
    · simp only [chunkLoopAux, if_pos hc, List.mem_cons] at h
      rcases h with h | h
      · exact h
      · exact ih _ _ h
    · simp [chunkLoopAux, hc] at h

theorem contCount_nil (g : String) : contCount [] g = 0 := rfl

theorem contCount_cons (p : String × Nat) (cont : Contingent) (g : String) :
    contCount (p :: cont) g = (if p.1 = g then p.2 else 0) + contCount cont g := by
  simp [contCount]

theorem contCount_eq_zero_of_not_mem (cont : Contingent) (g : String)
    (h : g ∉ cont.map Prod.fst) : contCount cont g = 0 := by
  apply List.sum_eq_zero
  intro t ht
  rcases List.mem_map.mp ht with ⟨p, hp, rfl⟩
  have hne : p.1 ≠ g := fun he => h (List.mem_map.mpr ⟨p, hp, he⟩)
  simp [hne]

theorem groupTotal_nil (g : String) : groupTotal [] g = 0 := rfl

theorem groupTotal_cons (cont : Contingent) (conts : List Contingent) (g : String) :
    groupTotal (cont :: conts) g = contCount cont g + groupTotal conts g := by
  simp [groupTotal]

theorem groupTotal_append (l₁ l₂ : List Contingent) (g : String) :
    groupTotal (l₁ ++ l₂) g = groupTotal l₁ g + groupTotal l₂ g := by
  simp [groupTotal]

theorem groupTotal_eq_zero (conts : List Contingent) (g : String)
    (h : ∀ cont ∈ conts, contCount cont g = 0) : groupTotal conts g = 0 := by
  apply List.sum_eq_zero
  intro t ht
  rcases List.mem_map.mp ht with ⟨cont, hc, rfl⟩
  exact h cont hc

theorem groupTotal_chunkLoop_self (g : String) (count capacity : Nat) (hcap : 0 < capacity) :
    groupTotal (chunkLoop g count capacity).1 g = count / capacity * capacity := by
  rw [chunkLoop_eq g count capacity hcap]
  induction count / capacity with
  | zero => simp [groupTotal]
  | succ k ih =>
    rw [List.replicate_succ, groupTotal_cons, ih]
    simp [contCount, Nat.succ_mul, Nat.add_comm]

theorem groupTotal_chunkLoop_other (g g' : String) (count capacity : Nat) (hne : g ≠ g') :
    groupTotal (chunkLoop g count capacity).1 g' = 0 := by
  apply groupTotal_eq_zero
  intro cont hcont
  rw [chunkLoopAux_mem g capacity count count cont hcont]
  simp [contCount, hne]

theorem preAllocate_not_mem (groups : List (String × GroupInfo)) (capacity : Nat)
    (g : String) (h : g ∉ groups.map Prod.fst) :
    groupTotal (preAllocate groups capacity).1 g = 0 ∧
      contCount (preAllocate groups capacity).2 g = 0 := by
  induction groups with
  | nil => simp [preAllocate, groupTotal_nil, contCount_nil]
  | cons p rest ih =>
    obtain ⟨g', info⟩ := p
    simp only [List.map_cons, List.mem_cons, not_or] at h
    obtain ⟨hne, hnotin⟩ := h
    have ⟨ih1, ih2⟩ := ih hnotin
    by_cases hcond : info.avoid_split = true ∧ 0 < info.size
    · by_cases hleft : 0 < (chunkLoop g' info.size capacity).2
      · simp only [preAllocate, if_pos hcond, if_pos hleft]
        constructor
        · rw [groupTotal_append, ih1, groupTotal_chunkLoop_other g' g _ _ (Ne.symm hne)]
        · rw [contCount_cons, ih2]
          simp [Ne.symm hne]
      · simp only [preAllocate, if_pos hcond, if_neg hleft]
        constructor
        · rw [groupTotal_append, ih1, groupTotal_chunkLoop_other g' g _ _ (Ne.symm hne)]
        · exact ih2
    · simp only [preAllocate, if_neg hcond]
      refine ⟨ih1, ?_⟩
      rw [contCount_cons, ih2]
      simp [Ne.symm hne]


theorem groupTotal_replicate_self (g : String) (k capacity : Nat) :
    groupTotal (List.replicate k [(g, capacity)]) g = k * capacity := by
  induction k with
  | zero => simp [groupTotal]
  | succ k ih =>
    rw [List.replicate_succ, groupTotal_cons, ih]
    simp [contCount, Nat.succ_mul, Nat.add_comm]

theorem preAllocate_conserves (groups : List (String × GroupInfo)) (capacity : Nat)
    (hcap : 0 < capacity) (hnodup : (groups.map Prod.fst).Nodup) :
    ∀ g info, (g, info) ∈ groups →
      groupTotal (preAllocate groups capacity).1 g +
        contCount (preAllocate groups capacity).2 g = info.size := by
  induction groups with
  | nil => intro g info h; simp at h
  | cons p rest ih =>
    obtain ⟨g', info'⟩ := p
    simp only [List.map_cons, List.nodup_cons] at hnodup
    obtain ⟨hhead, htail⟩ := hnodup
    intro g info hmem
    rcases List.mem_cons.mp hmem with heq | hrest
    · injection heq with h1 h2
      subst h1
      subst h2
      have hnot : g ∉ rest.map Prod.fst := hhead
      have ⟨hz1, hz2⟩ := preAllocate_not_mem rest capacity g hnot
      by_cases hcond : info.avoid_split = true ∧ 0 < info.size
      · have hchunk := chunkLoop_eq g info.size capacity hcap
        by_cases hleft : 0 < info.size % capacity
        · simp only [preAllocate, if_pos hcond, hchunk, if_pos hleft]
          rw [groupTotal_append, hz1, contCount_cons, hz2,
            groupTotal_replicate_self]
          have hdm := Nat.div_add_mod info.size capacity
          have hmc : info.size / capacity * capacity =
              capacity * (info.size / capacity) := Nat.mul_comm _ _
          simp only [reduceIte]
          omega
        · simp only [preAllocate, if_pos hcond, hchunk, if_neg hleft]
          rw [groupTotal_append, hz1, hz2, groupTotal_replicate_self]
          have hdm := Nat.div_add_mod info.size capacity
          have hmc : info.size / capacity * capacity =
              capacity * (info.size / capacity) := Nat.mul_comm _ _
          omega
      · simp only [preAllocate, if_neg hcond]
        rw [hz1, contCount_cons, hz2]
        simp
    · have hne : g' ≠ g := by
        intro he
        apply hhead
        rw [he]
        exact List.mem_map.mpr ⟨(g, info), hrest, rfl⟩
      have hih := ih htail g info hrest
      by_cases hcond : info'.avoid_split = true ∧ 0 < info'.size
      · by_cases hleft : 0 < (chunkLoop g' info'.size capacity).2
        · simp only [preAllocate, if_pos hcond, if_pos hleft]
          rw [groupTotal_append, groupTotal_chunkLoop_other g' g _ _ hne,
            contCount_cons]
          simpa [hne] using hih
        · simp only [preAllocate, if_pos hcond, if_neg hleft]
          rw [groupTotal_append, groupTotal_chunkLoop_other g' g _ _ hne]
          simpa using hih
      · simp only [preAllocate, if_neg hcond]
        rw [contCount_cons]
        simpa [hne] using hih

theorem preAllocate_keys_sublist (groups : List (String × GroupInfo)) (capacity : Nat) :
    ((preAllocate groups capacity).2.map Prod.fst).Sublist (groups.map Prod.fst) := by
  induction groups with
  | nil => simp [preAllocate]
  | cons p rest ih =>
    obtain ⟨g', info'⟩ := p
    by_cases hcond : info'.avoid_split = true ∧ 0 < info'.size
    · by_cases hleft : 0 < (chunkLoop g' info'.size capacity).2
      · simp only [preAllocate, if_pos hcond, if_pos hleft, List.map_cons]
        exact ih.cons₂ g'
      · simp only [preAllocate, if_pos hcond, if_neg hleft, List.map_cons]
        exact ih.cons g'
    · simp only [preAllocate, if_neg hcond, List.map_cons]
      exact ih.cons₂ g'

theorem contCount_assoc_of_mem (rem : List (String × Nat)) (g : String) (a : Nat)
    (hnodup : (rem.map Prod.fst).Nodup) (hmem : (g, a) ∈ rem) :
    contCount rem g = a := by
  induction rem with
  | nil => simp at hmem
  | cons p rest ih =>
    obtain ⟨g', a'⟩ := p
    simp only [List.map_cons, List.nodup_cons] at hnodup
    obtain ⟨hhead, htail⟩ := hnodup
    rcases List.mem_cons.mp hmem with heq | hrest
    · injection heq with h1 h2
      subst h1
      subst h2
      rw [contCount_cons, contCount_eq_zero_of_not_mem rest g hhead]
      simp
    · have hne : g' ≠ g := by
        intro he
        apply hhead
        rw [he]
        exact List.mem_map.mpr ⟨(g, a), hrest, rfl⟩
      rw [contCount_cons, ih htail hrest]
      simp [hne]

/-! ## Lemmas about solution extraction -/

theorem contCount_extractCont (labels : List String) (x : String → Nat → Nat)
    (c : Nat) (g : String) :
    contCount (extractCont labels x c) g =
      (labels.map (fun l => if l = g then x l c else 0)).sum := by
  induction labels with
  | nil => simp [extractCont, contCount]
  | cons l ls ih =>
    by_cases hpos : 0 < x l c
    · simp only [extractCont, List.filterMap_cons, if_pos hpos, List.map_cons,
        List.sum_cons]
      rw [contCount_cons]
      simp only [extractCont] at ih
      rw [ih]
    · have hx : x l c = 0 := by omega
      simp only [extractCont, List.filterMap_cons, if_neg hpos, List.map_cons,
        List.sum_cons]
      simp only [extractCont] at ih
      rw [ih, hx]
      simp

theorem label_sum_of_mem (labels : List String) (g : String) (v : String → Nat)
    (hnodup : labels.Nodup) (hmem : g ∈ labels) :
    (labels.map (fun l => if l = g then v l else 0)).sum = v g := by
  induction labels with
  | nil => simp at hmem
  | cons l ls ih =>
    simp only [List.nodup_cons] at hnodup
    obtain ⟨hhead, htail⟩ := hnodup
    rcases List.mem_cons.mp hmem with rfl | hls
    · simp only [List.map_cons, List.sum_cons, if_pos rfl]
      have hrest : (ls.map (fun l => if l = g then v l else 0)).sum = 0 := by
        apply List.sum_eq_zero
        intro t ht
        rcases List.mem_map.mp ht with ⟨l', hl', rfl⟩
        have : l' ≠ g := fun he => hhead (he ▸ hl')
        simp [this]
      rw [hrest]
      simp
    · have hne : l ≠ g := fun he => hhead (he ▸ hls)
      simp only [List.map_cons, List.sum_cons, if_neg hne]
      rw [ih htail hls]
      simp

theorem label_sum_of_not_mem (labels : List String) (g : String) (v : String → Nat)
    (hmem : g ∉ labels) :
    (labels.map (fun l => if l = g then v l else 0)).sum = 0 := by
  apply List.sum_eq_zero
  intro t ht
  rcases List.mem_map.mp ht with ⟨l', hl', rfl⟩
  have : l' ≠ g := fun he => hmem (he ▸ hl')
  simp [this]

theorem assignedSum_eq_zero_iff (labels : List String) (x : String → Nat → Nat)
    (c : Nat) : assignedSum labels x c = 0 ↔ ∀ l ∈ labels, x l c = 0 := by
  unfold assignedSum
  rw [List.sum_eq_zero_iff]
  constructor
  · intro h l hl
    exact h (x l c) (List.mem_map.mpr ⟨l, hl, rfl⟩)
  · intro h t ht
    rcases List.mem_map.mp ht with ⟨l, hl, rfl⟩
    exact h l hl

theorem groupTotal_extractSolution (labels : List String) (x : String → Nat → Nat)
    (C : Nat) (g : String) :
    groupTotal (extractSolution labels x C) g =
      ((List.range C).map (fun c => contCount (extractCont labels x c) g)).sum := by
  unfold extractSolution
  induction List.range C with
  | nil => simp [groupTotal]
  | cons c cs ih =>
    by_cases hz : assignedSum labels x c = 0
    · simp only [List.filterMap_cons, if_pos hz, List.map_cons, List.sum_cons]
      rw [ih]
      have hc0 : contCount (extractCont labels x c) g = 0 := by
        rw [contCount_extractCont]
        apply List.sum_eq_zero
        intro t ht
        rcases List.mem_map.mp ht with ⟨l, hl, rfl⟩
        have := (assignedSum_eq_zero_iff labels x c).mp hz l hl
        simp [this]
      rw [hc0]
      simp
    · simp only [List.filterMap_cons, if_neg hz, List.map_cons, List.sum_cons]
      rw [groupTotal_cons, ih]

/-- C1 helper: the extracted solution's per-group total equals the residual
dict's entry for that group (or 0 when the group is fully pre-chunked),
whenever the solver values satisfy group conservation. -/
theorem groupTotal_extract_eq_contCount (rem : List (String × Nat))
    (x : String → Nat → Nat) (C : Nat) (g : String)
    (hnodup : (rem.map Prod.fst).Nodup)
    (hcons : ∀ p ∈ rem, ((List.range C).map (fun c => x p.1 c)).sum = p.2) :
    groupTotal (extractSolution (rem.map Prod.fst) x C) g = contCount rem g := by
  rw [groupTotal_extractSolution]
  by_cases hmem : g ∈ rem.map Prod.fst
  · rcases List.mem_map.mp hmem with ⟨p, hp, rfl⟩
    have hsum : ∀ c, contCount (extractCont (rem.map Prod.fst) x c) p.1 = x p.1 c := by
      intro c
      rw [contCount_extractCont]
      exact label_sum_of_mem (rem.map Prod.fst) p.1 (fun l => x l c) hnodup hmem
    calc ((List.range C).map
          (fun c => contCount (extractCont (rem.map Prod.fst) x c) p.1)).sum
        = ((List.range C).map (fun c => x p.1 c)).sum := by
          apply congrArg
          exact List.map_congr_left (fun c _ => hsum c)
      _ = p.2 := hcons p hp
      _ = contCount rem p.1 := (contCount_assoc_of_mem rem p.1 p.2 hnodup hp).symm
  · have h1 : ∀ c, contCount (extractCont (rem.map Prod.fst) x c) g = 0 := by
      intro c
      rw [contCount_extractCont]
      exact label_sum_of_not_mem (rem.map Prod.fst) g (fun l => x l c) hmem
    have h2 : contCount rem g = 0 := contCount_eq_zero_of_not_mem rem g hmem
    rw [h2]
    apply List.sum_eq_zero
    intro t ht
    rcases List.mem_map.mp ht with ⟨c, _, rfl⟩
    exact h1 c

/-- C1: in use-all mode, whenever the solver's integral values satisfy the
model's group-conservation constraints (`sum_c x[i,c] = A[i]` over the
residual groups), the allocation returned by `allocate_contingents`
(pre-allocated contingents concatenated with extracted solver contingents),
summed per group across all contingents, equals each group's declared size
exactly. -/
theorem allocate_contingents_conserves_group_sizes
    (group_sizes : List (String × GroupInfo))
    (capacity strict_min_capacity contingent_row_size : Nat)
    (fix_num_contingents : Option Nat) (status : SolverStatus)
    (xval : String → Nat → Nat) (objVal : Int)
    (conts : List Contingent) (objv : Int)
    (hcap : 0 < capacity)
    (hnodup : (group_sizes.map Prod.fst).Nodup)
    (hcons : ∀ p ∈ (preAllocate group_sizes capacity).2,
      ((List.range (maxContingents (preAllocate group_sizes capacity).2 capacity)).map
        (fun c => xval p.1 c)).sum = p.2)
    (hok : allocate_contingents group_sizes capacity strict_min_capacity
      contingent_row_size true fix_num_contingents status xval objVal =
        .ok (conts, objv)) :
    ∀ p ∈ group_sizes, groupTotal conts p.1 = p.2.size := by
  intro p hp
  obtain ⟨g, info⟩ := p
  show groupTotal conts g = info.size
  have hremnodup : ((preAllocate group_sizes capacity).2.map Prod.fst).Nodup :=
    hnodup.sublist (preAllocate_keys_sublist group_sizes capacity)
  have hpre := preAllocate_conserves group_sizes capacity hcap hnodup g info hp
  simp only [allocate_contingents] at hok
  split at hok
  · rename_i htot
    simp only [Except.ok.injEq, Prod.mk.injEq] at hok
    obtain ⟨rfl, -⟩ := hok
    have hrem0 : contCount (preAllocate group_sizes capacity).2 g = 0 := by
      apply List.sum_eq_zero
      intro t ht
      rcases List.mem_map.mp ht with ⟨q, hq, rfl⟩
      have hq2 : q.2 = 0 := by
        have := List.sum_eq_zero_iff.mp htot
        exact this q.2 (List.mem_map.mpr ⟨q, hq, rfl⟩)
      simp [hq2]
    omega
  · split at hok
    · simp at hok
    · simp only [Except.ok.injEq, Prod.mk.injEq] at hok
      obtain ⟨rfl, -⟩ := hok
      rw [groupTotal_append,
        groupTotal_extract_eq_contCount (preAllocate group_sizes capacity).2 xval
          (maxContingents (preAllocate group_sizes capacity).2 capacity) g
          hremnodup hcons]
      omega

theorem allocate_contingents_conserves_group_sizes_witness :
    ((0 : Nat) < 5 ∧
      ([(("A" : String), GroupInfo.mk 2 false)].map Prod.fst).Nodup ∧
      (∀ p ∈ (preAllocate [("A", GroupInfo.mk 2 false)] 5).2,
        ((List.range (maxContingents (preAllocate [("A", GroupInfo.mk 2 false)] 5).2 5)).map
          (fun c => (if p.1 = "A" ∧ c = 0 then 2 else 0 : Nat))).sum = p.2) ∧
      allocate_contingents [("A", GroupInfo.mk 2 false)] 5 0 5 true none
        SolverStatus.OPTIMAL (fun l c => if l = "A" ∧ c = 0 then 2 else 0) 7 =
          .ok ([[("A", 2)]], 7)) ∧
    ∀ p ∈ [(("A" : String), GroupInfo.mk 2 false)], groupTotal [[("A", 2)]] p.1 = p.2.size := by
  refine ⟨⟨by norm_num, by decide, by decide, by rfl⟩, ?_⟩
  exact allocate_contingents_conserves_group_sizes
    [("A", GroupInfo.mk 2 false)] 5 0 5 none SolverStatus.OPTIMAL
    (fun l c => if l = "A" ∧ c = 0 then 2 else 0) 7 [[("A", 2)]] 7
    (by norm_num) (by decide) (by decide) (by rfl)

/-- C5: whenever the solver is actually invoked (some residual people remain
after pre-chunking) and reports a status other than OPTIMAL or FEASIBLE,
`allocate_contingents` raises the "No feasible solution" exception instead of
returning a partial or empty allocation. -/
theorem allocate_contingents_solver_failure_raises
    (group_sizes : List (String × GroupInfo))
    (capacity strict_min_capacity contingent_row_size : Nat) (use_all : Bool)
    (fix_num_contingents : Option Nat) (status : SolverStatus)
    (xval : String → Nat → Nat) (objVal : Int)
    (htot : ((preAllocate group_sizes capacity).2.map Prod.snd).sum ≠ 0)
    (hst1 : status ≠ SolverStatus.OPTIMAL) (hst2 : status ≠ SolverStatus.FEASIBLE) :
    allocate_contingents group_sizes capacity strict_min_capacity
      contingent_row_size use_all fix_num_contingents status xval objVal =
      .error "No feasible solution found by the solver." := by
  simp only [allocate_contingents]
  rw [if_neg htot, if_pos ⟨hst1, hst2⟩]

theorem allocate_contingents_solver_failure_raises_witness :
    ((([(("A" : String), GroupInfo.mk 3 false)].map Prod.fst).Nodup ∧
      ((preAllocate [("A", GroupInfo.mk 3 false)] 5).2.map Prod.snd).sum ≠ 0 ∧
      SolverStatus.INFEASIBLE ≠ SolverStatus.OPTIMAL ∧
      SolverStatus.INFEASIBLE ≠ SolverStatus.FEASIBLE) ∧
    allocate_contingents [("A", GroupInfo.mk 3 false)] 5 0 5 true none
      SolverStatus.INFEASIBLE (fun _ _ => 0) 0 =
      .error "No feasible solution found by the solver.") := by
  refine ⟨⟨by decide, by decide, by decide, by decide⟩, ?_⟩
  exact allocate_contingents_solver_failure_raises
    [("A", GroupInfo.mk 3 false)] 5 0 5 true none SolverStatus.INFEASIBLE
    (fun _ _ => 0) 0 (by decide) (by decide) (by decide)

/-- C9: when pre-chunking consumes every group exactly (all residual sizes
sum to zero), `allocate_contingents` returns the pre-allocated contingents
with objective value 0, and its result does not depend on anything the
solver oracle would report — the solver is never consulted. -/
theorem allocate_contingents_trivial_no_solver
    (group_sizes : List (String × GroupInfo))
    (capacity strict_min_capacity contingent_row_size : Nat) (use_all : Bool)
    (fix_num_contingents : Option Nat)
    (status status' : SolverStatus) (xval xval' : String → Nat → Nat)
    (objVal objVal' : Int)
    (htot : ((preAllocate group_sizes capacity).2.map Prod.snd).sum = 0) :
    allocate_contingents group_sizes capacity strict_min_capacity
      contingent_row_size use_all fix_num_contingents status xval objVal =
      .ok ((preAllocate group_sizes capacity).1, 0) ∧
    allocate_contingents group_sizes capacity strict_min_capacity
      contingent_row_size use_all fix_num_contingents status xval objVal =
      allocate_contingents group_sizes capacity strict_min_capacity
        contingent_row_size use_all fix_num_contingents status' xval' objVal' := by
  have h : ∀ (s : SolverStatus) (xv : String → Nat → Nat) (ov : Int),
      allocate_contingents group_sizes capacity strict_min_capacity
        contingent_row_size use_all fix_num_contingents s xv ov =
        .ok ((preAllocate group_sizes capacity).1, 0) := by
    intro s xv ov
    simp only [allocate_contingents]
    rw [if_pos htot]
  exact ⟨h status xval objVal,
    (h status xval objVal).trans (h status' xval' objVal').symm⟩

theorem allocate_contingents_trivial_no_solver_witness :
    (((preAllocate [(("A" : String), GroupInfo.mk 5 true)] 5).2.map Prod.snd).sum = 0) ∧
    allocate_contingents [("A", GroupInfo.mk 5 true)] 5 0 5 true none
      SolverStatus.INFEASIBLE (fun _ _ => 0) 3 =
      .ok ((preAllocate [("A", GroupInfo.mk 5 true)] 5).1, 0) ∧
    allocate_contingents [("A", GroupInfo.mk 5 true)] 5 0 5 true none
      SolverStatus.INFEASIBLE (fun _ _ => 0) 3 =
      allocate_contingents [("A", GroupInfo.mk 5 true)] 5 0 5 true none
        SolverStatus.OPTIMAL (fun _ c => c) 99 := by
  refine ⟨by decide, ?_⟩
  exact allocate_contingents_trivial_no_solver
    [("A", GroupInfo.mk 5 true)] 5 0 5 true none
    SolverStatus.INFEASIBLE SolverStatus.OPTIMAL (fun _ _ => 0) (fun _ c => c)
    3 99 (by decide)

/-- C7: the pre-allocation chunker turns each `avoid_split` group of positive
size into `size / capacity` full single-group contingents of exactly
`capacity` people and a residual entry `size % capacity` recorded only when
positive, while every other group (including `size = 0` groups) passes its
whole size to the residual dict unchanged; in particular `size = 185`,
`capacity = 90` yields two full contingents of 90 and a residual of 5. -/
theorem pre_allocation_chunker_spec (g : String) (info : GroupInfo)
    (rest : List (String × GroupInfo)) (capacity : Nat) (hcap : 0 < capacity) :
    preAllocate ((g, info) :: rest) capacity =
      (if info.avoid_split = true ∧ 0 < info.size then
        (List.replicate (info.size / capacity) [(g, capacity)] ++
          (preAllocate rest capacity).1,
         if 0 < info.size % capacity then
           (g, info.size % capacity) :: (preAllocate rest capacity).2
         else (preAllocate rest capacity).2)
       else
        ((preAllocate rest capacity).1,
          (g, info.size) :: (preAllocate rest capacity).2)) ∧
    preAllocate [("G", GroupInfo.mk 185 true)] 90 =
      ([[("G", 90)], [("G", 90)]], [("G", 5)]) := by
  constructor
  · by_cases hcond : info.avoid_split = true ∧ 0 < info.size
    · simp only [preAllocate, if_pos hcond, chunkLoop_eq g info.size capacity hcap]
    · simp only [preAllocate, if_neg hcond]
  · decide

theorem pre_allocation_chunker_spec_witness :
    (0 : Nat) < 3 ∧
    (preAllocate [(("A" : String), GroupInfo.mk 7 true)] 3 =
      (if (GroupInfo.mk 7 true).avoid_split = true ∧ 0 < (GroupInfo.mk 7 true).size then
        (List.replicate ((GroupInfo.mk 7 true).size / 3) [("A", 3)] ++
          (preAllocate [] 3).1,
         if 0 < (GroupInfo.mk 7 true).size % 3 then
           ("A", (GroupInfo.mk 7 true).size % 3) :: (preAllocate [] 3).2
         else (preAllocate [] 3).2)
       else
        ((preAllocate [] 3).1,
          ("A", (GroupInfo.mk 7 true).size) :: (preAllocate [] 3).2)) ∧
      preAllocate [("G", GroupInfo.mk 185 true)] 90 =
        ([[("G", 90)], [("G", 90)]], [("G", 5)])) := by
  exact ⟨by norm_num, pre_allocation_chunker_spec "A" (GroupInfo.mk 7 true) [] 3 (by norm_num)⟩

/-! ## Lemmas for the singleton / row-multiple constraint block -/

theorem lookup_eq_of_mem (groups : List (String × GroupInfo)) (g : String)
    (info : GroupInfo) (hnodup : (groups.map Prod.fst).Nodup)
    (hmem : (g, info) ∈ groups) : groups.lookup g = some info := by
  induction groups with
  | nil => simp at hmem
  | cons p rest ih =>
    obtain ⟨g', info'⟩ := p
    simp only [List.map_cons, List.nodup_cons] at hnodup
    obtain ⟨hhead, htail⟩ := hnodup
    rcases List.mem_cons.mp hmem with heq | hrest
    · injection heq with h1 h2
      subst h1
      subst h2
      simp [List.lookup]
    · have hne : g ≠ g' := by
        intro he
        apply hhead
        rw [← he]
        exact List.mem_map.mpr ⟨(g, info), hrest, rfl⟩
      simp only [List.lookup, beq_eq_false_iff_ne.mpr hne]
      exact ih htail hrest

theorem mem_preAllocate_residual (groups : List (String × GroupInfo))
    (capacity : Nat) (g : String) (info : GroupInfo) (hcap : 0 < capacity)
    (hav : info.avoid_split = true) (hpos : 0 < info.size)
    (hlt : info.size < capacity) (hmem : (g, info) ∈ groups) :
    (g, info.size) ∈ (preAllocate groups capacity).2 := by
  induction groups with
  | nil => simp at hmem
  | cons p rest ih =>
    obtain ⟨g', info'⟩ := p
    rcases List.mem_cons.mp hmem with heq | hrest
    · injection heq with h1 h2
      subst h1
      subst h2
      have hchunk := chunkLoop_eq g info.size capacity hcap
      have hmod : info.size % capacity = info.size := Nat.mod_eq_of_lt hlt
      have hcond : info.avoid_split = true ∧ 0 < info.size := ⟨hav, hpos⟩
      simp only [preAllocate, if_pos hcond, hchunk, hmod, if_pos hpos]
      exact List.mem_cons_self _ _
    · have hres := ih hrest
      by_cases hcond : info'.avoid_split = true ∧ 0 < info'.size
      · by_cases hleft : 0 < (chunkLoop g' info'.size capacity).2
        · simp only [preAllocate, if_pos hcond, if_pos hleft]
          exact List.mem_cons_of_mem _ hres
        · simp only [preAllocate, if_pos hcond, if_neg hleft]
          exact hres
      · simp only [preAllocate, if_neg hcond]
        exact List.mem_cons_of_mem _ hres

theorem preAllocate_chunks_not_mem (groups : List (String × GroupInfo))
    (capacity : Nat) (g : String) (h : g ∉ groups.map Prod.fst) :
    ∀ cont ∈ (preAllocate groups capacity).1, contCount cont g = 0 := by
  induction groups with
  | nil => simp [preAllocate]
  | cons p rest ih =>
    obtain ⟨g', info'⟩ := p
    simp only [List.map_cons, List.mem_cons, not_or] at h
    obtain ⟨hne, hnotin⟩ := h
    intro cont hcont
    by_cases hcond : info'.avoid_split = true ∧ 0 < info'.size
    · have hsplit : cont ∈ (chunkLoop g' info'.size capacity).1 ∨
          cont ∈ (preAllocate rest capacity).1 := by
        by_cases hleft : 0 < (chunkLoop g' info'.size capacity).2
        · simp only [preAllocate, if_pos hcond, if_pos hleft] at hcont
          exact List.mem_append.mp hcont
        · simp only [preAllocate, if_pos hcond, if_neg hleft] at hcont
          exact List.mem_append.mp hcont
      rcases hsplit with hchunk | hrest
      · rw [chunkLoopAux_mem g' capacity _ _ cont hchunk]
        simp [contCount, Ne.symm hne]
      · exact ih hnotin cont hrest
    · simp only [preAllocate, if_neg hcond] at hcont
      exact ih hnotin cont hcont

theorem preAllocate_no_small_group (groups : List (String × GroupInfo))
    (capacity : Nat) (g : String) (info : GroupInfo) (hcap : 0 < capacity)
    (hnodup : (groups.map Prod.fst).Nodup) (hmem : (g, info) ∈ groups)
    (hlt : info.size < capacity) :
    ∀ cont ∈ (preAllocate groups capacity).1, contCount cont g = 0 := by
  induction groups with
  | nil => simp at hmem
  | cons p rest ih =>
    obtain ⟨g', info'⟩ := p
    simp only [List.map_cons, List.nodup_cons] at hnodup
    obtain ⟨hhead, htail⟩ := hnodup
    intro cont hcont
    rcases List.mem_cons.mp hmem with heq | hrest
    · injection heq with h1 h2
      subst h1
      subst h2
      by_cases hcond : info.avoid_split = true ∧ 0 < info.size
      · have hchunk := chunkLoop_eq g info.size capacity hcap
        have hdiv : info.size / capacity = 0 := Nat.div_eq_of_lt hlt
        have hnil : (chunkLoop g info.size capacity).1 = [] := by
          rw [hchunk, hdiv]
          rfl
        have hsplit : cont ∈ (chunkLoop g info.size capacity).1 ∨
            cont ∈ (preAllocate rest capacity).1 := by
          by_cases hleft : 0 < (chunkLoop g info.size capacity).2
          · simp only [preAllocate, if_pos hcond, if_pos hleft] at hcont
            exact List.mem_append.mp hcont
          · simp only [preAllocate, if_pos hcond, if_neg hleft] at hcont
            exact List.mem_append.mp hcont
        rcases hsplit with hchunkmem | hrestmem
        · rw [hnil] at hchunkmem
          simp at hchunkmem
        · exact preAllocate_chunks_not_mem rest capacity g hhead cont hrestmem
      · simp only [preAllocate, if_neg hcond] at hcont
        exact preAllocate_chunks_not_mem rest capacity g hhead cont hcont
    · have hne : g' ≠ g := by
        intro he
        apply hhead
        rw [he]
        exact List.mem_map.mpr ⟨(g, info), hrest, rfl⟩
      by_cases hcond : info'.avoid_split = true ∧ 0 < info'.size
      · have hsplit : cont ∈ (chunkLoop g' info'.size capacity).1 ∨
            cont ∈ (preAllocate rest capacity).1 := by
          by_cases hleft : 0 < (chunkLoop g' info'.size capacity).2
          · simp only [preAllocate, if_pos hcond, if_pos hleft] at hcont
            exact List.mem_append.mp hcont
          · simp only [preAllocate, if_pos hcond, if_neg hleft] at hcont
            exact List.mem_append.mp hcont
        rcases hsplit with hchunkmem | hrestmem
        · rw [chunkLoopAux_mem g' capacity _ _ cont hchunkmem]
          simp [contCount, hne]
        · exact ih htail hrest cont hrestmem
      · simp only [preAllocate, if_neg hcond] at hcont
        exact ih htail hrest cont hcont

theorem map_sum_eq_one_unique (L : List Nat) (f : Nat → Nat)
    (h : (L.map f).sum = 1) :
    ∃ c0 ∈ L, f c0 = 1 ∧ ∀ c ∈ L, c ≠ c0 → f c = 0 := by
  induction L with
  | nil => simp at h
  | cons c cs ih =>
    simp only [List.map_cons, List.sum_cons] at h
    by_cases hc : f c = 0
    · rw [hc] at h
      simp only [Nat.zero_add] at h
      obtain ⟨c0, hc0, hfc0, hrest⟩ := ih h
      refine ⟨c0, List.mem_cons_of_mem _ hc0, hfc0, ?_⟩
      intro c' hc' hne
      rcases List.mem_cons.mp hc' with rfl | hcs
      · exact hc
      · exact hrest c' hcs hne
    · have hfc : f c = 1 ∧ (cs.map f).sum = 0 := by omega
      refine ⟨c, List.mem_cons_self _ _, hfc.1, ?_⟩
      intro c' hc' hne
      rcases List.mem_cons.mp hc' with rfl | hcs
      · exact absurd rfl hne
      · exact List.sum_eq_zero_iff.mp hfc.2 (f c') (List.mem_map.mpr ⟨c', hcs, rfl⟩)

theorem map_sum_single (L : List Nat) (f : Nat → Nat) (c0 : Nat)
    (hnodup : L.Nodup) (hc0 : c0 ∈ L) (hz : ∀ c ∈ L, c ≠ c0 → f c = 0) :
    (L.map f).sum = f c0 := by
  induction L with
  | nil => simp at hc0
  | cons c cs ih =>
    simp only [List.nodup_cons] at hnodup
    obtain ⟨hhead, htail⟩ := hnodup
    simp only [List.map_cons, List.sum_cons]
    rcases List.mem_cons.mp hc0 with rfl | hcs
    · have hrest : (cs.map f).sum = 0 := by
        apply List.sum_eq_zero
        intro t ht
        rcases List.mem_map.mp ht with ⟨c', hc', rfl⟩
        exact hz c' (List.mem_cons_of_mem _ hc') (fun he => hhead (he ▸ hc'))
      rw [hrest]
      simp
    · have hcz : f c = 0 :=
        hz c (List.mem_cons_self _ _) (fun he => hhead (he ▸ hcs))
      rw [hcz, ih htail hcs
        (fun c' hc' hne => hz c' (List.mem_cons_of_mem _ hc') hne)]
      simp

theorem countP_eq_one_of_unique (L : List Nat) (p : Nat → Bool) (c0 : Nat)
    (hnodup : L.Nodup) (hc0 : c0 ∈ L) (hp : p c0 = true)
    (hz : ∀ c ∈ L, c ≠ c0 → p c = false) : L.countP p = 1 := by
  induction L with
  | nil => simp at hc0
  | cons c cs ih =>
    simp only [List.nodup_cons] at hnodup
    obtain ⟨hhead, htail⟩ := hnodup
    rcases List.mem_cons.mp hc0 with rfl | hcs
    · rw [List.countP_cons, if_pos hp]
      have hrest : cs.countP p = 0 := by
        rw [List.countP_eq_zero]
        intro c' hc'
        have := hz c' (List.mem_cons_of_mem _ hc') (fun he => hhead (he ▸ hc'))
        simp [this]
      omega
    · have hcz : p c = false :=
        hz c (List.mem_cons_self _ _) (fun he => hhead (he ▸ hcs))
      rw [List.countP_cons, if_neg (by simp [hcz]),
        ih htail hcs (fun c' hc' hne => hz c' (List.mem_cons_of_mem _ hc') hne)]

theorem contSum_extractCont (labels : List String) (x : String → Nat → Nat)
    (c : Nat) : contSum (extractCont labels x c) = assignedSum labels x c := by
  induction labels with
  | nil => simp [extractCont, contSum, assignedSum]
  | cons l ls ih =>
    by_cases hpos : 0 < x l c
    · simp only [extractCont, List.filterMap_cons, if_pos hpos] at *
      simp only [assignedSum, List.map_cons, List.sum_cons, contSum] at *
      rw [← ih]
    · have hx : x l c = 0 := by omega
      simp only [extractCont, List.filterMap_cons, if_neg hpos] at *
      simp only [assignedSum, List.map_cons, List.sum_cons, hx] at *
      rw [← ih]
      simp

theorem assignedSum_eq_contTotal (rem : List (String × Nat)) (v : SolverVals)
    (c : Nat) : assignedSum (rem.map Prod.fst) v.x c = contTotal rem v c := by
  unfold assignedSum contTotal
  rw [List.map_map]
  rfl

theorem countP_extractSolution (labels : List String) (x : String → Nat → Nat)
    (C : Nat) (g : String) (hnodup : labels.Nodup) (hg : g ∈ labels) :
    (extractSolution labels x C).countP (fun cont => decide (0 < contCount cont g)) =
      (List.range C).countP (fun c => decide (0 < x g c)) := by
  unfold extractSolution
  induction List.range C with
  | nil => simp
  | cons c cs ih =>
    have hcc : contCount (extractCont labels x c) g = x g c := by
      rw [contCount_extractCont]
      exact label_sum_of_mem labels g (fun l => x l c) hnodup hg
    by_cases hz : assignedSum labels x c = 0
    · have hx0 : x g c = 0 := (assignedSum_eq_zero_iff labels x c).mp hz g hg
      simp only [List.filterMap_cons, if_pos hz, List.countP_cons, hx0]
      rw [ih]
      simp
    · simp only [List.filterMap_cons, if_neg hz, List.countP_cons, hcc]
      rw [ih]

/-- C6 (amended): for every `avoid_split` group whose declared size is
positive and strictly below capacity, under any integral solver values
satisfying the built constraint set (big-M slack bound `capacity`, use-all
mode), that group appears in exactly one contingent of the final allocation,
and every contingent containing it has a total head-count that is an exact
multiple of the configured row size. -/
theorem avoid_split_singleton_row_multiple_amended
    (group_sizes : List (String × GroupInfo))
    (capacity strict_min_capacity contingent_row_size : Nat)
    (fixN : Option Nat) (v : SolverVals) (g : String) (info : GroupInfo)
    (hcap : 0 < capacity)
    (hnodup : (group_sizes.map Prod.fst).Nodup)
    (hmem : (g, info) ∈ group_sizes)
    (hav : info.avoid_split = true) (hpos : 0 < info.size)
    (hlt : info.size < capacity)
    (hsat : satisfiesConstraints group_sizes (preAllocate group_sizes capacity).2
      capacity strict_min_capacity contingent_row_size true fixN
      (maxContingents (preAllocate group_sizes capacity).2 capacity) v) :
    ((preAllocate group_sizes capacity).1 ++
        extractSolution ((preAllocate group_sizes capacity).2.map Prod.fst) v.x
          (maxContingents (preAllocate group_sizes capacity).2 capacity)).countP
      (fun cont => decide (0 < contCount cont g)) = 1 ∧
    ∀ cont ∈ (preAllocate group_sizes capacity).1 ++
        extractSolution ((preAllocate group_sizes capacity).2.map Prod.fst) v.x
          (maxContingents (preAllocate group_sizes capacity).2 capacity),
      0 < contCount cont g → contingent_row_size ∣ contSum cont := by
  obtain ⟨hxb, hcapc, hzlow, hcons, hlink, hfix, hsing, hmin⟩ := hsat
  have hremnodup : (((preAllocate group_sizes capacity).2).map Prod.fst).Nodup :=
    hnodup.sublist (preAllocate_keys_sublist group_sizes capacity)
  have hgrem : (g, info.size) ∈ (preAllocate group_sizes capacity).2 :=
    mem_preAllocate_residual group_sizes capacity g info hcap hav hpos hlt hmem
  have hglab : g ∈ ((preAllocate group_sizes capacity).2).map Prod.fst :=
    List.mem_map.mpr ⟨(g, info.size), hgrem, rfl⟩
  have hqual : qualifiesSingleton group_sizes capacity g = true := by
    unfold qualifiesSingleton
    rw [lookup_eq_of_mem group_sizes g info hnodup hmem]
    simp [hav, hlt]
  have hsing' := hsing (g, info.size) hgrem hqual
  have hysum : ((List.range (maxContingents (preAllocate group_sizes capacity).2
      capacity)).map (fun c => (v.y g c).toNat)).sum = 1 := hsing'.1
  have hbigm : ∀ c < maxContingents (preAllocate group_sizes capacity).2 capacity,
      v.m g c ≤ capacity ∧
      (contTotal (preAllocate group_sizes capacity).2 v c : Int) -
        contingent_row_size * v.m g c ≤ capacity * (1 - ((v.y g c).toNat : Int)) ∧
      -(capacity * (1 - ((v.y g c).toNat : Int))) ≤
        (contTotal (preAllocate group_sizes capacity).2 v c : Int) -
          contingent_row_size * v.m g c := hsing'.2
  obtain ⟨c0, hc0mem, hyc0, hyoff⟩ :=
    map_sum_eq_one_unique
      (List.range (maxContingents (preAllocate group_sizes capacity).2 capacity))
      (fun c => (v.y g c).toNat) hysum
  have hc0lt : c0 < maxContingents (preAllocate group_sizes capacity).2 capacity :=
    List.mem_range.mp hc0mem
  have hyc0' : v.y g c0 = true := by
    cases h : v.y g c0
    · rw [h] at hyc0
      simp at hyc0
    · rfl
  have hxoff : ∀ c ∈ List.range (maxContingents (preAllocate group_sizes capacity).2
      capacity), c ≠ c0 → v.x g c = 0 := by
    intro c hc hne
    have hl : v.x g c ≤ capacity * (v.y g c).toNat :=
      hlink (g, info.size) hgrem c (List.mem_range.mp hc)
    have hy := hyoff c hc hne
    have hy0 : v.y g c = false := by
      cases h : v.y g c
      · rfl
      · rw [h] at hy
        simp at hy
    rw [hy0] at hl
    simpa using hl
  have hxc0 : v.x g c0 = info.size := by
    have hs : ((List.range (maxContingents (preAllocate group_sizes capacity).2
        capacity)).map (fun c => v.x g c)).sum = info.size :=
      (hcons (g, info.size) hgrem).1 rfl
    rw [map_sum_single _ (fun c => v.x g c) c0 (List.nodup_range _) hc0mem hxoff] at hs
    exact hs
  have hub : (contTotal (preAllocate group_sizes capacity).2 v c0 : Int) -
      contingent_row_size * v.m g c0 ≤ 0 := by
    have h := (hbigm c0 hc0lt).2.1
    rw [hyc0'] at h
    simpa using h
  have hlb : (0 : Int) ≤ (contTotal (preAllocate group_sizes capacity).2 v c0 : Int) -
      contingent_row_size * v.m g c0 := by
    have h := (hbigm c0 hc0lt).2.2
    rw [hyc0'] at h
    simpa using h
  have heqn : contTotal (preAllocate group_sizes capacity).2 v c0 =
      contingent_row_size * v.m g c0 := by
    have : (contTotal (preAllocate group_sizes capacity).2 v c0 : Int) =
        (contingent_row_size : Int) * v.m g c0 := by omega
    exact_mod_cast this
  have hdvd : contingent_row_size ∣
      contTotal (preAllocate group_sizes capacity).2 v c0 := ⟨v.m g c0, heqn⟩
  have hcc : ∀ c, contCount (extractCont
      (((preAllocate group_sizes capacity).2).map Prod.fst) v.x c) g = v.x g c := by
    intro c
    rw [contCount_extractCont]
    exact label_sum_of_mem _ g (fun l => v.x l c) hremnodup hglab
  constructor
  · rw [List.countP_append]
    have hpre0 : ((preAllocate group_sizes capacity).1).countP
        (fun cont => decide (0 < contCount cont g)) = 0 := by
      rw [List.countP_eq_zero]
      intro cont hcont
      have h0 := preAllocate_no_small_group group_sizes capacity g info hcap
        hnodup hmem hlt cont hcont
      simp [h0]
    rw [hpre0, countP_extractSolution _ _ _ _ hremnodup hglab]
    have hone : (List.range (maxContingents (preAllocate group_sizes capacity).2
        capacity)).countP (fun c => decide (0 < v.x g c)) = 1 := by
      apply countP_eq_one_of_unique _ _ c0 (List.nodup_range _) hc0mem
      · simp [hxc0, hpos]
      · intro c hc hne
        have := hxoff c hc hne
        simp [this]
    rw [hone]
  · intro cont hcont hposc
    rcases List.mem_append.mp hcont with hp | he
    · have h0 := preAllocate_no_small_group group_sizes capacity g info hcap
        hnodup hmem hlt cont hp
      omega
    · simp only [extractSolution] at he
      rcases List.mem_filterMap.mp he with ⟨c, hc, heqc⟩
      by_cases hz : assignedSum (((preAllocate group_sizes capacity).2).map Prod.fst)
          v.x c = 0
      · rw [if_pos hz] at heqc
        exact absurd heqc (by simp)
      · rw [if_neg hz] at heqc
        have hconteq : extractCont (((preAllocate group_sizes capacity).2).map Prod.fst)
            v.x c = cont := by
          injection heqc
        have hceq : c = c0 := by
          by_contra hne
          have hx0 := hxoff c hc hne
          rw [← hconteq, hcc c, hx0] at hposc
          exact absurd hposc (by omega)
        subst hceq
        rw [← hconteq, contSum_extractCont, assignedSum_eq_contTotal]
        exact hdvd

theorem avoid_split_zero_size_counterexample :
    ((0 : Nat) < 7 ∧
      (([(("B" : String), GroupInfo.mk 0 true),
         ("A", GroupInfo.mk 5 false)]).map Prod.fst).Nodup ∧
      ("B", GroupInfo.mk 0 true) ∈
        [(("B" : String), GroupInfo.mk 0 true), ("A", GroupInfo.mk 5 false)] ∧
      (GroupInfo.mk 0 true).avoid_split = true ∧
      (GroupInfo.mk 0 true).size < 7 ∧
      satisfiesConstraints
        [("B", GroupInfo.mk 0 true), ("A", GroupInfo.mk 5 false)]
        (preAllocate [("B", GroupInfo.mk 0 true), ("A", GroupInfo.mk 5 false)] 7).2
        7 1 1 true none
        (maxContingents
          (preAllocate [("B", GroupInfo.mk 0 true), ("A", GroupInfo.mk 5 false)] 7).2 7)
        ⟨fun l c => if l = "A" ∧ c = 0 then 5 else 0,
         fun _ c => c == 0,
         fun c => c == 0,
         fun _ c => if c = 0 then 5 else 0⟩) ∧
    ¬ (((preAllocate [("B", GroupInfo.mk 0 true), ("A", GroupInfo.mk 5 false)] 7).1 ++
        extractSolution
          ((preAllocate [("B", GroupInfo.mk 0 true),
            ("A", GroupInfo.mk 5 false)] 7).2.map Prod.fst)
          (fun l c => if l = "A" ∧ c = 0 then 5 else 0)
          (maxContingents
            (preAllocate [("B", GroupInfo.mk 0 true),
              ("A", GroupInfo.mk 5 false)] 7).2 7)).countP
        (fun cont => decide (0 < contCount cont "B")) = 1) := by
  refine ⟨⟨by norm_num, by decide, by decide, by decide, by decide, by decide⟩, by decide⟩

theorem avoid_split_singleton_row_multiple_amended_witness :
    ((0 : Nat) < 5 ∧
      (([(("B" : String), GroupInfo.mk 3 true),
         ("A", GroupInfo.mk 4 false)]).map Prod.fst).Nodup ∧
      ("B", GroupInfo.mk 3 true) ∈
        [(("B" : String), GroupInfo.mk 3 true), ("A", GroupInfo.mk 4 false)] ∧
      (GroupInfo.mk 3 true).avoid_split = true ∧
      0 < (GroupInfo.mk 3 true).size ∧
      (GroupInfo.mk 3 true).size < 5 ∧
      satisfiesConstraints
        [("B", GroupInfo.mk 3 true), ("A", GroupInfo.mk 4 false)]
        (preAllocate [("B", GroupInfo.mk 3 true), ("A", GroupInfo.mk 4 false)] 5).2
        5 0 1 true none
        (maxContingents
          (preAllocate [("B", GroupInfo.mk 3 true), ("A", GroupInfo.mk 4 false)] 5).2 5)
        ⟨fun l c => if l = "B" ∧ c = 0 then 3 else if l = "A" ∧ c = 0 then 2
            else if l = "A" ∧ c = 1 then 2 else 0,
         fun l c => (c == 0) || (l == "A" && c == 1),
         fun c => c == 0 || c == 1,
         fun l c => if l = "B" ∧ c = 0 then 5 else 0⟩) ∧
    (((preAllocate [("B", GroupInfo.mk 3 true), ("A", GroupInfo.mk 4 false)] 5).1 ++
        extractSolution
          ((preAllocate [("B", GroupInfo.mk 3 true),
            ("A", GroupInfo.mk 4 false)] 5).2.map Prod.fst)
          (SolverVals.x ⟨fun l c => if l = "B" ∧ c = 0 then 3
              else if l = "A" ∧ c = 0 then 2
              else if l = "A" ∧ c = 1 then 2 else 0,
            fun l c => (c == 0) || (l == "A" && c == 1),
            fun c => c == 0 || c == 1,
            fun l c => if l = "B" ∧ c = 0 then 5 else 0⟩)
          (maxContingents
            (preAllocate [("B", GroupInfo.mk 3 true),
              ("A", GroupInfo.mk 4 false)] 5).2 5)).countP
        (fun cont => decide (0 < contCount cont "B")) = 1 ∧
      ∀ cont ∈ (preAllocate [("B", GroupInfo.mk 3 true),
            ("A", GroupInfo.mk 4 false)] 5).1 ++
          extractSolution
            ((preAllocate [("B", GroupInfo.mk 3 true),
              ("A", GroupInfo.mk 4 false)] 5).2.map Prod.fst)
            (SolverVals.x ⟨fun l c => if l = "B" ∧ c = 0 then 3
                else if l = "A" ∧ c = 0 then 2
                else if l = "A" ∧ c = 1 then 2 else 0,
              fun l c => (c == 0) || (l == "A" && c == 1),
              fun c => c == 0 || c == 1,
              fun l c => if l = "B" ∧ c = 0 then 5 else 0⟩)
            (maxContingents
              (preAllocate [("B", GroupInfo.mk 3 true),
                ("A", GroupInfo.mk 4 false)] 5).2 5),
        0 < contCount cont "B" → 1 ∣ contSum cont) := by
  refine ⟨⟨by norm_num, by decide, by decide, by decide, by decide, by decide, by decide⟩, ?_⟩
  exact avoid_split_singleton_row_multiple_amended
    [("B", GroupInfo.mk 3 true), ("A", GroupInfo.mk 4 false)] 5 0 1 none
    ⟨fun l c => if l = "B" ∧ c = 0 then 3 else if l = "A" ∧ c = 0 then 2
        else if l = "A" ∧ c = 1 then 2 else 0,
     fun l c => (c == 0) || (l == "A" && c == 1),
     fun c => c == 0 || c == 1,
     fun l c => if l = "B" ∧ c = 0 then 5 else 0⟩
    "B" (GroupInfo.mk 3 true)
    (by norm_num) (by decide) (by decide) (by decide) (by decide) (by decide) (by decide)

/-! ## Lemmas about the seat-removal loops -/

theorem removeRowsLoop_snd (col missing : Nat) :
    ∀ (L : List Nat) (f : Nat → Nat → Bool) (removed : Nat),
      (removeRowsLoop col missing L (f, removed)).2 =
        removed + min (missing - removed) L.length := by
  intro L
  induction L with
  | nil => intro f removed; simp [removeRowsLoop]
  | cons r rest ih =>
    intro f removed
    by_cases h : removed < missing
    · simp only [removeRowsLoop, if_pos h]
      rw [ih]
      simp only [List.length_cons]
      omega
    · simp only [removeRowsLoop, if_neg h]
      omega

theorem removeRowsLoop_fst (col missing : Nat) :
    ∀ (L : List Nat) (f : Nat → Nat → Bool) (removed : Nat) (r c : Nat),
      (removeRowsLoop col missing L (f, removed)).1 r c =
        if r ∈ L.take (missing - removed) ∧ c = col then false else f r c := by
  intro L
  induction L with
  | nil =>
    intro f removed r c
    simp [removeRowsLoop]
  | cons r0 rest ih =>
    intro f removed r c
    by_cases h : removed < missing
    · simp only [removeRowsLoop, if_pos h]
      rw [ih]
      have hk : missing - removed = (missing - (removed + 1)) + 1 := by omega
      rw [hk, List.take_succ_cons]
      by_cases hc : c = col
      · subst hc
        by_cases hmem : r ∈ rest.take (missing - (removed + 1))
        · simp [hmem, eraseSeat]
        · by_cases hr0 : r = r0
          · subst hr0
            simp [hmem, eraseSeat]
          · simp [hmem, hr0, eraseSeat]
      · simp [hc, eraseSeat]
    · simp only [removeRowsLoop, if_neg h]
      have hk : missing - removed = 0 := by omega
      rw [hk]
      simp

theorem mem_take_reverse_range :
    ∀ (n k r : Nat), k ≤ n →
      (r ∈ ((List.range n).reverse.take k) ↔ n - k ≤ r ∧ r < n) := by
  intro n
  induction n with
  | zero =>
    intro k r hk
    have : k = 0 := by omega
    subst this
    simp
  | succ n ih =>
    intro k r hk
    have hrev : (List.range (n + 1)).reverse = n :: (List.range n).reverse := by
      rw [List.range_succ, List.reverse_append]
      simp
    rw [hrev]
    cases k with
    | zero => simp
    | succ k' =>
      rw [List.take_succ_cons, List.mem_cons, ih k' r (by omega)]
      omega


theorem removeSeatsLoop_spec (rows columns missing : Nat) (hmiss : 0 < missing)
    (hmr : missing ≤ rows) (hcol : 2 ≤ columns) (r c : Nat) :
    removeSeatsLoop columns (fun _ _ => true) missing 0 1 columns rows r c =
      if r ∈ (List.range rows).reverse.take missing ∧ c = 1 then false else true := by
  obtain ⟨k, rfl⟩ : ∃ k, columns = k + 2 := ⟨columns - 2, by omega⟩
  have hsnd : (removeRowsLoop 1 missing (List.range rows).reverse
      ((fun _ _ => true), 0)).2 = missing := by
    rw [removeRowsLoop_snd]
    simp only [List.length_reverse, List.length_range]
    omega
  show removeSeatsLoop (k + 1 + 1) (fun _ _ => true) missing 0 1 (k + 2) rows r c = _
  rw [removeSeatsLoop, if_pos ⟨hmiss, by omega⟩]
  rw [hsnd]
  cases k with
  | zero =>
    rw [removeSeatsLoop, if_neg (by omega)]
    rw [removeRowsLoop_fst]
    simp
  | succ k' =>
    show removeSeatsLoop (k' + 1 + 1) _ missing missing 2 (k' + 1 + 2) rows r c = _
    rw [removeSeatsLoop, if_neg (by omega)]
    rw [removeRowsLoop_fst]
    simp

theorem removeSeatsLoop_one_column (rows missing : Nat) (r c : Nat) :
    removeSeatsLoop 1 (fun _ _ => true) missing 0 1 1 rows r c = true := by
  show removeSeatsLoop (0 + 1) (fun _ _ => true) missing 0 1 1 rows r c = true
  rw [removeSeatsLoop, if_neg (by omega)]

theorem seat_formula_general (rows columns missing : Nat) (hrows : 0 < rows)
    (hmlt : missing < rows) (hcolpos : 0 < columns) (r c : Nat) :
    (if 0 < missing then
        removeSeatsLoop columns (fun _ _ => true) missing 0 1 columns rows
      else fun _ _ => true) r c =
      if 2 ≤ columns ∧ c = 1 ∧ rows - missing ≤ r ∧ r < rows then false else true := by
  by_cases hm : 0 < missing
  · rw [if_pos hm]
    by_cases hc2 : 2 ≤ columns
    · rw [removeSeatsLoop_spec rows columns missing hm (by omega) hc2 r c]
      split_ifs with h1 h2 h2 <;> try rfl
      · have hmem := (mem_take_reverse_range rows missing r (by omega)).mp h1.1
        exact absurd ⟨hc2, h1.2, hmem.1, hmem.2⟩ h2
      · have hmem := (mem_take_reverse_range rows missing r (by omega)).mpr
          ⟨h2.2.2.1, h2.2.2.2⟩
        exact absurd ⟨hmem, h2.2.1⟩ h1
    · have hc1 : columns = 1 := by omega
      subst hc1
      rw [removeSeatsLoop_one_column rows missing r c]
      rw [if_neg (by omega)]
  · rw [if_neg hm]
    have hm0 : missing = 0 := by omega
    subst hm0
    rw [if_neg (by omega)]

/-- Characterization of the occupancy matrix built by the seat-grid
generator for a positive head-count: a seat is removed exactly when the grid
has at least two columns, the seat is in column index 1, and its row is among
the `missing` bottom rows. -/
theorem create_contingent_ascii_seat_eq (count rows : Nat) (hrows : 0 < rows)
    (hcount : 0 < count) (r c : Nat) :
    (create_contingent_ascii count rows).seat r c =
      if 2 ≤ (count + rows - 1) / rows ∧ c = 1 ∧
          rows - (rows * ((count + rows - 1) / rows) - count) ≤ r ∧ r < rows
        then false else true := by
  have hdm := Nat.div_add_mod (count + rows - 1) rows
  have hmodlt : (count + rows - 1) % rows < rows := Nat.mod_lt _ hrows
  show (if 0 < rows * ((count + rows - 1) / rows) - count then
      removeSeatsLoop ((count + rows - 1) / rows) (fun _ _ => true)
        (rows * ((count + rows - 1) / rows) - count) 0 1
        ((count + rows - 1) / rows) rows
    else fun _ _ => true) r c = _
  generalize hq : (count + rows - 1) / rows = q at hdm ⊢
  generalize hmd : (count + rows - 1) % rows = md at hdm hmodlt
  have hub : count ≤ rows * q := by omega
  have hmlt : rows * q - count < rows := by omega
  have hqpos : 0 < q := by
    rcases Nat.eq_zero_or_pos q with h0 | h
    · subst h0
      simp at hdm
      omega
    · exact h
  exact seat_formula_general rows q (rows * q - count) hrows hmlt hqpos r c

/-- C10: for positive head-count and positive row count, every seat removed
by `create_contingent_ascii` lies in column index 1; stated as its
contrapositive, every column other than column index 1 is fully occupied in
the rendered grid. -/
theorem removed_seats_only_column_one (count rows : Nat) (hrows : 0 < rows)
    (hcount : 0 < count) :
    ∀ r < rows, ∀ c < (create_contingent_ascii count rows).columns, c ≠ 1 →
      (create_contingent_ascii count rows).seat r c = true := by
  intro r _hr c _hc hne
  rw [create_contingent_ascii_seat_eq count rows hrows hcount r c]
  rw [if_neg (by tauto)]

theorem removed_seats_only_column_one_witness :
    ((0 : Nat) < 5 ∧ (0 : Nat) < 7) ∧
    (∀ r < 5, ∀ c < (create_contingent_ascii 7 5).columns, c ≠ 1 →
      (create_contingent_ascii 7 5).seat r c = true) := by
  exact ⟨⟨by norm_num, by norm_num⟩,
    removed_seats_only_column_one 7 5 (by norm_num) (by norm_num)⟩

/-! ## Occupied-seat counting for the seat grid -/

theorem count_intersperse (sep ch : Char) (h : sep ≠ ch) :
    ∀ l : List Char, (List.intersperse sep l).count ch = l.count ch := by
  intro l
  induction l with
  | nil => simp
  | cons a t ih =>
    cases t with
    | nil => simp
    | cons b t2 =>
      have hbe : (sep == ch) = false := beq_eq_false_iff_ne.mpr h
      simp [List.intersperse_cons_cons, List.count_cons, ih, hbe]

theorem count_flatten_intersperse (sep : List Char) (ch : Char)
    (hsep : sep.count ch = 0) :
    ∀ L : List (List Char),
      (List.intercalate sep L).count ch = (L.map (fun l => l.count ch)).sum := by
  intro L
  induction L with
  | nil => simp [List.intercalate]
  | cons l1 t ih =>
    cases t with
    | nil => simp [List.intercalate]
    | cons l2 t2 =>
      have hstep : List.intercalate sep (l1 :: l2 :: t2) =
          l1 ++ sep ++ List.intercalate sep (l2 :: t2) := by
        show (List.intersperse sep (l1 :: l2 :: t2)).flatten = _
        rw [List.intersperse_cons_cons]
        show l1 ++ (sep ++ (List.intersperse sep (l2 :: t2)).flatten) = _
        rw [List.append_assoc]
        rfl
      rw [hstep, List.count_append, List.count_append, ih, hsep]
      simp

theorem count_map_marker (seatf : Nat → Bool) (L : List Nat) :
    ((L.map (fun c => if seatf c then 'x' else ' ')).count 'x') =
      L.countP (fun c => seatf c) := by
  induction L with
  | nil => simp
  | cons a t ih =>
    rw [List.map_cons, List.count_cons, List.countP_cons, ih]
    cases h : seatf a <;> simp [h]

theorem seatRowChars_count (g : SeatGrid) (r : Nat) :
    (seatRowChars g r).count 'x' =
      (List.range g.columns).countP (fun c => g.seat r c) := by
  unfold seatRowChars
  rw [count_intersperse ' ' 'x' (by decide)]
  exact count_map_marker (fun c => g.seat r c) (List.range g.columns)

theorem gridChars_count (g : SeatGrid) :
    (gridChars g).count 'x' = occupiedCount g := by
  unfold gridChars occupiedCount
  rw [count_flatten_intersperse ['\n'] 'x' (by decide)]
  rw [List.map_map]
  apply congrArg
  apply List.map_congr_left
  intro r _
  exact seatRowChars_count g r

theorem sum_map_range_ite (n t a b : Nat) :
    ((List.range n).map (fun r => if t ≤ r then a else b)).sum =
      (n - t) * a + min t n * b := by
  induction n with
  | zero => simp
  | succ n ih =>
    rw [List.range_succ, List.map_append, List.sum_append, ih]
    by_cases h : t ≤ n
    · rw [List.map_singleton, List.sum_singleton, if_pos h,
        Nat.min_eq_left h, Nat.min_eq_left (by omega)]
      have hn : n + 1 - t = (n - t) + 1 := by omega
      rw [hn, Nat.succ_mul]
      ring
    · rw [List.map_singleton, List.sum_singleton, if_neg h,
        Nat.min_eq_right (by omega), Nat.min_eq_right (by omega)]
      have h1 : n - t = 0 := by omega
      have h2 : n + 1 - t = 0 := by omega
      rw [h1, h2, Nat.succ_mul]
      ring

theorem countP_range_ne_one (n : Nat) (hn : 2 ≤ n) :
    (List.range n).countP (fun c => decide ¬(c = 1)) = n - 1 := by
  induction n with
  | zero => omega
  | succ n ih =>
    by_cases h2 : 2 ≤ n
    · rw [List.range_succ, List.countP_append, ih h2]
      have hne : ¬(n = 1) := by omega
      simp only [List.countP_singleton, decide_eq_true_eq, if_pos hne]
      omega
    · have hn1 : n = 1 := by omega
      subst hn1
      decide

theorem sum_rows_identity (R q m : Nat) (hm : m ≤ R) (hq : 1 ≤ q) :
    m * (q - 1) + (R - m) * q = R * q - m := by
  obtain ⟨s, rfl⟩ : ∃ s, R = m + s := ⟨R - m, by omega⟩
  obtain ⟨k, rfl⟩ : ∃ k, q = k + 1 := ⟨q - 1, by omega⟩
  have h1 : m + s - m = s := by omega
  have h2 : k + 1 - 1 = k := by omega
  rw [h1, h2]
  have h3 : (m + s) * (k + 1) = m * k + s * (k + 1) + m := by ring
  rw [h3, Nat.add_sub_cancel]

theorem occupiedCount_create (count rows : Nat) (hrows : 0 < rows)
    (h : count = 0 ∨ rows ≤ count) :
    occupiedCount (create_contingent_ascii count rows) = count := by
  rcases h with rfl | hle
  · have hcols : (0 + rows - 1) / rows = 0 := Nat.div_eq_of_lt (by omega)
    unfold occupiedCount
    apply List.sum_eq_zero
    intro t ht
    rcases List.mem_map.mp ht with ⟨r, _, rfl⟩
    rw [show (create_contingent_ascii 0 rows).columns = (0 + rows - 1) / rows from rfl,
      hcols]
    simp
  · have hcount : 0 < count := by omega
    have hseat := create_contingent_ascii_seat_eq count rows hrows hcount
    have hdm := Nat.div_add_mod (count + rows - 1) rows
    have hmodlt : (count + rows - 1) % rows < rows := Nat.mod_lt _ hrows
    show ((List.range rows).map (fun r => (List.range ((count + rows - 1) / rows)).countP
      (fun c => (create_contingent_ascii count rows).seat r c))).sum = count
    generalize hq : (count + rows - 1) / rows = q at hdm hseat ⊢
    generalize hmd : (count + rows - 1) % rows = md at hdm hmodlt
    have hub : count ≤ rows * q := by omega
    have hmlt : rows * q - count < rows := by omega
    have hqpos : 0 < q := by
      rcases Nat.eq_zero_or_pos q with h0 | hq0
      · subst h0
        simp at hdm
        omega
      · exact hq0
    by_cases hq2 : 2 ≤ q
    · have hrow : ∀ r ∈ List.range rows,
          (List.range q).countP (fun c => (create_contingent_ascii count rows).seat r c) =
            (fun r => if rows - (rows * q - count) ≤ r then q - 1 else q) r := by
        intro r hr
        show (List.range q).countP
            (fun c => (create_contingent_ascii count rows).seat r c) =
          if rows - (rows * q - count) ≤ r then q - 1 else q
        have hrlt : r < rows := List.mem_range.mp hr
        by_cases hb : rows - (rows * q - count) ≤ r
        · rw [if_pos hb]
          have hcong : (List.range q).countP
              (fun c => (create_contingent_ascii count rows).seat r c) =
              (List.range q).countP (fun c => decide ¬(c = 1)) := by
            apply List.countP_congr
            intro c _
            rw [hseat r c]
            by_cases hc1 : c = 1
            · subst hc1
              rw [if_pos ⟨hq2, rfl, hb, hrlt⟩]
              simp
            · rw [if_neg (by tauto)]
              simp [hc1]
          rw [hcong, countP_range_ne_one q hq2]
        · rw [if_neg hb]
          have hall : ∀ c ∈ List.range q,
              (create_contingent_ascii count rows).seat r c = true := by
            intro c _
            rw [hseat r c]
            rw [if_neg (by tauto)]
          rw [List.countP_eq_length.mpr (fun c hc => by rw [hall c hc]), List.length_range]
      rw [List.map_congr_left hrow]
      rw [sum_map_range_ite rows (rows - (rows * q - count)) (q - 1) q]
      have h1 : rows - (rows - (rows * q - count)) = rows * q - count := by omega
      have h2 : min (rows - (rows * q - count)) rows = rows - (rows * q - count) := by
        omega
      rw [h1, h2, sum_rows_identity rows q (rows * q - count) (by omega) (by omega)]
      omega
    · have hq1 : q = 1 := by omega
      subst hq1
      have hrow : ∀ r ∈ List.range rows,
          (List.range 1).countP (fun c => (create_contingent_ascii count rows).seat r c) =
            (fun _ => 1) r := by
        intro r _
        show (List.range 1).countP
            (fun c => (create_contingent_ascii count rows).seat r c) = 1
        have hall : ∀ c ∈ List.range 1,
            (create_contingent_ascii count rows).seat r c = true := by
          intro c _
          rw [hseat r c]
          rw [if_neg (by omega)]
        rw [List.countP_eq_length.mpr (fun c hc => by rw [hall c hc]), List.length_range]
      rw [List.map_congr_left hrow, List.map_const', List.length_range]
      have : (List.replicate rows 1).sum = rows * 1 := by
        simp [List.sum_replicate, smul_eq_mul]
      rw [this]
      omega

theorem create_contingent_ascii_small_count_counterexample :
    (gridString (create_contingent_ascii 3 5)).data.count 'x' = 5 ∧
    ¬ (gridString (create_contingent_ascii 3 5)).data.count 'x' = 3 := by
  constructor
  · decide
  · decide

/-- C2 (amended): for non-negative `count` and positive `rows`, the rendered
grid contains exactly `count` marker characters provided `count = 0` or
`count ≥ rows` (for `0 < count < rows` the removal loop cannot reach the
single column and the grid keeps `rows` markers), and whenever
`count ≥ rows` its first column (column index 0) is fully occupied. -/
theorem create_contingent_ascii_occupancy_amended (count rows : Nat)
    (hrows : 0 < rows) (hcr : count = 0 ∨ rows ≤ count) :
    (gridString (create_contingent_ascii count rows)).data.count 'x' = count ∧
    (rows ≤ count → ∀ r < rows,
      (create_contingent_ascii count rows).seat r 0 = true) := by
  constructor
  · show (gridChars (create_contingent_ascii count rows)).count 'x' = count
    rw [gridChars_count]
    exact occupiedCount_create count rows hrows hcr
  · intro hle r _
    have hcount : 0 < count := by omega
    rw [create_contingent_ascii_seat_eq count rows hrows hcount r 0]
    rw [if_neg (by omega)]

theorem create_contingent_ascii_occupancy_amended_witness :
    ((0 : Nat) < 5 ∧ ((13 : Nat) = 0 ∨ (5 : Nat) ≤ 13)) ∧
    ((gridString (create_contingent_ascii 13 5)).data.count 'x' = 13 ∧
      ((5 : Nat) ≤ 13 → ∀ r < 5, (create_contingent_ascii 13 5).seat r 0 = true)) := by
  exact ⟨⟨by norm_num, by norm_num⟩,
    create_contingent_ascii_occupancy_amended 13 5 (by norm_num) (by norm_num)⟩

/-- C3: the position remapping of `draw_formation.main` does not fail loudly
on an out-of-range contingent ordinal: with two contingents and the mapping
`{3: 1}` (ordinal 3 does not exist), the first placement pass never matches
ordinal 3, the gap-filling pass reinstates the original order, and the remap
returns successfully instead of raising. -/
theorem remap_out_of_range_ordinal_silent :
    remapPositions [[("A", 1)], [("B", 2)]] [(3, 1)] =
      .ok [some [("A", 1)], some [("B", 2)]] := by
  rfl

/-- C4: `create_parade_formation` applied to an empty contingent list reaches
`max(len(x) for x in first_row_lines)` with an empty sequence and raises
(Python `ValueError`), instead of returning an empty block. -/
theorem create_parade_formation_empty_errors :
    create_parade_formation [] 5 90 = .error "max() arg is an empty sequence" := by
  rfl

/-! ## Lemmas about the formation composer's ordering -/

theorem mem_enumFrom_fst_le {α : Type} :
    ∀ (m : Nat) (l : List α) (b : Nat × α), b ∈ List.enumFrom m l → m ≤ b.1 := by
  intro m l
  induction l generalizing m with
  | nil => intro b hb; simp [List.enumFrom] at hb
  | cons x xs ih =>
    intro b hb
    rcases List.mem_cons.mp hb with rfl | hb'
    · exact Nat.le_refl m
    · exact Nat.le_of_succ_le (ih (m + 1) b hb')

theorem enumFrom_pairwise_fst_lt {α : Type} :
    ∀ (k : Nat) (l : List α), (List.enumFrom k l).Pairwise (fun a b => a.1 < b.1) := by
  intro k l
  induction l generalizing k with
  | nil => simp [List.enumFrom]
  | cons x xs ih =>
    refine List.Pairwise.cons ?_ (ih (k + 1))
    intro b hb
    exact Nat.lt_of_lt_of_le (Nat.lt_succ_self k) (mem_enumFrom_fst_le (k + 1) xs b hb)

theorem orderedInsert_pairwise_lex (x : Nat × Nat × String) :
    ∀ (l : List (Nat × Nat × String)),
      l.Pairwise (fun a b => a.1 < b.1 ∨ (a.1 = b.1 ∧ a.2.1 < b.2.1)) →
      (∀ b ∈ l, x.1 = b.1 → x.2.1 < b.2.1) →
      (l.orderedInsert (fun a b => a.1 ≤ b.1) x).Pairwise
        (fun a b => a.1 < b.1 ∨ (a.1 = b.1 ∧ a.2.1 < b.2.1)) := by
  intro l
  induction l with
  | nil =>
    intro _ _
    simp [List.orderedInsert]
  | cons b t ih =>
    intro hp hidx
    rw [List.pairwise_cons] at hp
    obtain ⟨hbt, htp⟩ := hp
    by_cases hle : x.1 ≤ b.1
    · rw [List.orderedInsert, if_pos hle]
      refine List.Pairwise.cons ?_ (List.Pairwise.cons hbt htp)
      intro b' hb'
      rcases List.mem_cons.mp hb' with rfl | hbt'
      · rcases Nat.lt_or_ge x.1 b'.1 with hlt | hge
        · exact Or.inl hlt
        · have heq : x.1 = b'.1 := by omega
          exact Or.inr ⟨heq, hidx b' (List.mem_cons_self _ _) heq⟩
      · have hble : b.1 ≤ b'.1 := by
          rcases hbt b' hbt' with h | h
          · omega
          · omega
        rcases Nat.lt_or_ge x.1 b'.1 with hlt | hge
        · exact Or.inl hlt
        · have heq : x.1 = b'.1 := by omega
          exact Or.inr ⟨heq, hidx b' (List.mem_cons_of_mem _ hbt') heq⟩
    · rw [List.orderedInsert, if_neg hle]
      refine List.Pairwise.cons ?_
        (ih htp (fun b' hb' => hidx b' (List.mem_cons_of_mem _ hb')))
      intro b' hb'
      rcases (List.mem_orderedInsert _).mp hb' with rfl | hbt'
      · exact Or.inl (by omega)
      · exact hbt b' hbt'

theorem insertionSort_pairwise_lex :
    ∀ (l : List (Nat × Nat × String)),
      l.Pairwise (fun a b => a.2.1 < b.2.1) →
      (l.insertionSort (fun a b => a.1 ≤ b.1)).Pairwise
        (fun a b => a.1 < b.1 ∨ (a.1 = b.1 ∧ a.2.1 < b.2.1)) := by
  intro l
  induction l with
  | nil => intro _; simp
  | cons x t ih =>
    intro hp
    rw [List.pairwise_cons] at hp
    obtain ⟨hxt, htp⟩ := hp
    rw [List.insertionSort]
    apply orderedInsert_pairwise_lex x _ (ih htp)
    intro b hb _
    exact hxt b ((List.perm_insertionSort _ t).subset hb)

/-- C8: for a non-empty contingent list, the formation composer's sorted
display list is a permutation of the rendered diagrams ordered by ascending
`|capacity - total|` with ties broken by the original 1-based ordinal
(the unique stable order), and the two display rows hold exactly
`ceil(n/2)` and `floor(n/2)` diagrams. -/
theorem formation_composer_order_and_split (contingents : List Contingent)
    (contingent_row_size capacity : Nat) (hne : contingents ≠ []) :
    (sortedDisplays contingents contingent_row_size capacity).Perm
      (displayTuples contingents contingent_row_size capacity) ∧
    (sortedDisplays contingents contingent_row_size capacity).Pairwise
      (fun a b => a.1 < b.1 ∨ (a.1 = b.1 ∧ a.2.1 < b.2.1)) ∧
    (((sortedDisplays contingents contingent_row_size capacity).map
        (fun t => t.2.2)).take ((contingents.length + 1) / 2)).length =
      (contingents.length + 1) / 2 ∧
    (((sortedDisplays contingents contingent_row_size capacity).map
        (fun t => t.2.2)).drop ((contingents.length + 1) / 2)).length =
      contingents.length / 2 := by
  have hlen : (sortedDisplays contingents contingent_row_size capacity).length =
      contingents.length := by
    unfold sortedDisplays
    rw [(List.perm_insertionSort _ _).length_eq]
    unfold displayTuples
    rw [List.length_map, List.enumFrom_length]
  have hpos : 0 < contingents.length := List.length_pos.mpr hne
  refine ⟨List.perm_insertionSort _ _, ?_, ?_, ?_⟩
  · unfold sortedDisplays
    apply insertionSort_pairwise_lex
    unfold displayTuples
    apply List.Pairwise.map
    · intro a b hab
      exact hab
    · exact enumFrom_pairwise_fst_lt 1 contingents
  · rw [List.length_take, List.length_map, hlen]
    omega
  · rw [List.length_drop, List.length_map, hlen]
    omega

theorem formation_composer_order_and_split_witness :
    ([[(("A" : String), 2)], [("B", 3)]] ≠ ([] : List Contingent)) ∧
    ((sortedDisplays [[("A", 2)], [("B", 3)]] 5 90).Perm
      (displayTuples [[("A", 2)], [("B", 3)]] 5 90) ∧
    (sortedDisplays [[("A", 2)], [("B", 3)]] 5 90).Pairwise
      (fun a b => a.1 < b.1 ∨ (a.1 = b.1 ∧ a.2.1 < b.2.1)) ∧
    (((sortedDisplays [[("A", 2)], [("B", 3)]] 5 90).map
        (fun t => t.2.2)).take (([[(("A" : String), 2)], [("B", 3)]].length + 1) / 2)).length =
      ([[(("A" : String), 2)], [("B", 3)]].length + 1) / 2 ∧
    (((sortedDisplays [[("A", 2)], [("B", 3)]] 5 90).map
        (fun t => t.2.2)).drop (([[(("A" : String), 2)], [("B", 3)]].length + 1) / 2)).length =
      [[(("A" : String), 2)], [("B", 3)]].length / 2) := by
  exact ⟨by decide,
    formation_composer_order_and_split [[("A", 2)], [("B", 3)]] 5 90 (by decide)⟩
